import Mathlib

/-!
Verification development for the Telegram YouTube downloader bot
(single source file `ytb1.py`).

The embedding models the bot's pure decision logic directly from the
source:

* `Format` embeds one entry of the yt-dlp `formats` list: the code reads
  only the keys `height` (missing key modelled as `none`, the code's
  `'unknown'` default), `vcodec` (missing key modelled as `none`) and
  `filesize` (missing key modelled as `none`).
* `get_available_formats` embeds `YouTubeDownloader.get_available_formats`
  (lines 32-54): a Python dict is an insertion-ordered association list,
  and Python's stable `sorted(..., reverse=True)` is embedded as a stable
  descending insertion sort on the same key function.
* The `dl_<quality>_<url>` button payload encoding/decoding embeds the
  f-string at line 169 and the `split('_')` / `'_'.join` logic at lines
  203-205; Python `str.split(sep)` / `sep.join` semantics are implemented
  character by character.
* The button menu construction embeds `handle_message` lines 161-179;
  Python `round(x, 1)` on `file_size/(1024*1024)` is embedded as exact
  round-half-to-even of the rational `file_size/2^20` to one decimal digit
  (for integral byte counts below 2^53 the Python float computation is
  exact, so the two agree).
* `button_callback`, `download_video` and `download_audio` (lines
  193-342) are embedded as functions from the collaborator outcomes (the
  yt-dlp call either raises or returns a reported filename, the transport
  send either succeeds or raises) to the list of observable effects
  (message edits, sends, file removals), abstracting message texts into
  the inductive `Msg` and ignoring the collaborator-cadence progress-hook
  edits, which no claim touches.
-/

/-- One entry of the yt-dlp `formats` list, restricted to the keys the
code reads. `none` models a missing dictionary key. -/
structure Format where
  height : Option Nat
  vcodec : Option String
  filesize : Option Nat
deriving DecidableEq

/-- `f.get('filesize', 0) or 0` (line 41): a missing file size counts as 0. -/
def fsize (f : Format) : Nat := f.filesize.getD 0

/-- The filter `f.get('vcodec') != 'none'` (line 39). -/
def isVideoFormat (f : Format) : Bool := !(f.vcodec == some "none")

/-- `f.get('height', 'unknown')` (line 40): the dict key used by
`unique_resolutions`; `none` is the `'unknown'` key. -/
def resKey (f : Format) : Option Nat := f.height

/-- Python dict membership/lookup on an insertion-ordered association list. -/
def dictLookup (d : List (Option Nat × Format)) (k : Option Nat) : Option Format :=
  match d with
  | [] => none
  | (k1, v) :: rest => if k1 = k then some v else dictLookup rest k

/-- Python dict assignment `d[k] = v`: update in place if the key exists,
append at the end otherwise (insertion order preserved). -/
def dictInsert (d : List (Option Nat × Format)) (k : Option Nat) (v : Format) :
    List (Option Nat × Format) :=
  match d with
  | [] => [(k, v)]
  | (k1, v1) :: rest =>
      if k1 = k then (k1, v) :: rest else (k1, v1) :: dictInsert rest k v

/-- One iteration of the loop at lines 38-45 of `get_available_formats`. -/
def addFormat (d : List (Option Nat × Format)) (f : Format) :
    List (Option Nat × Format) :=
  if isVideoFormat f then
    let existingSize : Nat :=
      match dictLookup d (resKey f) with
      | some g => fsize g
      | none => 0
    if dictLookup d (resKey f) = none ∨ fsize f > existingSize then
      dictInsert d (resKey f) f
    else d
  else d

/-- The `unique_resolutions` dict after the loop at lines 37-45. -/
def unique_resolutions (formats : List Format) : List (Option Nat × Format) :=
  formats.foldl addFormat []

/-- The sort key `item[0] if isinstance(item[0], int) else 0` (line 50):
an `'unknown'` height sorts as height 0. -/
def heightKey : Option Nat → Nat
  | some n => n
  | none => 0

/-- Stable descending insertion (by `heightKey` of the dict key): the new
element goes after every strictly greater element and before the first
element that is less than or equal, so equal keys keep their original
relative order, exactly the contract of Python's stable
`sorted(..., reverse=True)` at lines 48-52. -/
def insertDesc (x : Option Nat × Format) :
    List (Option Nat × Format) → List (Option Nat × Format)
  | [] => [x]
  | y :: ys =>
      if heightKey x.1 < heightKey y.1 then y :: insertDesc x ys
      else x :: y :: ys

/-- Stable sort by `heightKey` descending, embedding
`sorted(unique_resolutions.items(), key=..., reverse=True)` (lines 48-52). -/
def sortDesc (l : List (Option Nat × Format)) : List (Option Nat × Format) :=
  l.foldr insertDesc []

/-- `YouTubeDownloader.get_available_formats` (lines 32-54). -/
def get_available_formats (formats : List Format) : List (Option Nat × Format) :=
  sortDesc (unique_resolutions formats)

/-- The same-height video candidates of the input list, in input order:
the members of `formats` that pass the `vcodec` filter and whose height
key equals `res`. -/
def sameHeightCandidates (formats : List Format) (res : Option Nat) : List Format :=
  formats.filter (fun f => isVideoFormat f && (resKey f == res))

/-- `f` is the first element of `l` attaining the maximal `fsize`:
everything before it is strictly smaller and everything after it is no
larger. -/
def IsFirstMax (l : List Format) (f : Format) : Prop :=
  ∃ p s, l = p ++ f :: s ∧ (∀ g ∈ p, fsize g < fsize f) ∧ (∀ g ∈ s, fsize g ≤ fsize f)

/-- Python `str.split(sep)` for a one-character separator, on character
lists: `''.split('_') == ['']`, `'a__b'.split('_') == ['a','','b']`. -/
def splitChars (sep : Char) : List Char → List (List Char)
  | [] => [[]]
  | c :: cs =>
      match splitChars sep cs with
      | [] => [[]]
      | h :: t => if c = sep then [] :: h :: t else (c :: h) :: t

/-- Python `sep.join(parts)` for a one-character separator. -/
def joinChars (sep : Char) : List (List Char) → List Char
  | [] => []
  | [x] => x
  | x :: y :: t => x ++ sep :: joinChars sep (y :: t)

/-- The button payload `f"dl_{res}_{url}"` built at lines 169 and 177. -/
def encodeCallback (quality url : String) : String :=
  "dl_" ++ quality ++ "_" ++ url

/-- The payload decoding at lines 203-205: `parts = data.split('_')`,
`quality = parts[1]`, `url = '_'.join(parts[2:])`; `none` models the
`IndexError` raised by `parts[1]` when the split has fewer than two
segments. -/
def decodeCallback (data : String) : Option (String × String) :=
  match splitChars '_' data.data with
  | _ :: q :: rest => some (String.mk q, String.mk (joinChars '_' rest))
  | _ => none

/-- The guard `data.startswith('dl_')` at line 201. -/
def startsWithDl (data : String) : Bool :=
  match data.data with
  | 'd' :: 'l' :: '_' :: _ => true
  | _ => false

/-- `f"{res}"` for a dict key: a decimal numeral for an integer height,
the literal `unknown` for the `'unknown'` key. -/
def resStr : Option Nat → String
  | some n => toString n
  | none => "unknown"

/-- `round(file_size/(1024*1024), 1)` (line 165) scaled by ten: the
multiple of one tenth nearest to `n/2^20` megabytes, halves to even.
For byte counts below 2^53 the Python float division is exact, so this
equals the float computation. -/
def mbTenths (n : Nat) : Nat :=
  let num := n * 10
  let den := 1048576
  if 2 * (num % den) > den then num / den + 1
  else if 2 * (num % den) < den then num / den
  else if num / den % 2 = 0 then num / den else num / den + 1

/-- The decimal rendering of the rounded megabyte count, one digit after
the point (Python prints the rounded float as `q.r`). -/
def mbStr (n : Nat) : String :=
  toString (mbTenths n / 10) ++ "." ++ toString (mbTenths n % 10)

/-- `size_str` at line 165: a ` (<size>MB)` suffix when `fmt.get('filesize')`
is truthy (present and nonzero), empty otherwise. -/
def sizeStr : Option Nat → String
  | some n => if n ≠ 0 then " (" ++ mbStr n ++ "MB)" else ""
  | none => ""

/-- One inline keyboard button: its label and its callback payload. -/
structure Button where
  label : String
  callback_data : String
deriving DecidableEq

/-- The video-quality button built at lines 166-171:
label `f"{res}p{size_str}"`, payload `f"dl_{res}_{url}"`. -/
def videoButton (url : String) (rf : Option Nat × Format) : Button :=
  { label := resStr rf.1 ++ "p" ++ sizeStr rf.2.filesize
    callback_data := "dl_" ++ resStr rf.1 ++ "_" ++ url }

/-- The synthetic audio-only button appended at lines 174-179. -/
def audioButton (url : String) : Button :=
  { label := "🎵 Audio Only (MP3)", callback_data := "dl_audio_" ++ url }

/-- The quality menu built at lines 162-179: a loop over
`list(formats.items())[:3]` appending one video button per entry,
followed by the unconditional audio button. -/
def buildButtons (formats : List (Option Nat × Format)) (url : String) : List Button :=
  ((formats.take 3).foldl (fun acc rf => acc ++ [videoButton url rf]) []) ++
    [audioButton url]

/-- Split a character list after its last occurrence of `sep`: the first
component is empty or ends with `sep`, the second contains no `sep`
(the `sepIndex` decomposition inside `os.path.splitext`). -/
def splitAfterLast (sep : Char) : List Char → List Char × List Char
  | [] => ([], [])
  | c :: cs =>
      if sep ∈ cs then
        ((splitAfterLast sep cs).1.cons c, (splitAfterLast sep cs).2)
      else if c = sep then ([c], cs)
      else ([], c :: cs)

/-- Split a character list at its last `'.'`: `some (stem, ext)` with the
dot removed and `'.' ∉ ext`, `none` when there is no dot. -/
def lastDotSplit : List Char → Option (List Char × List Char)
  | [] => none
  | c :: cs =>
      match lastDotSplit cs with
      | some (s, e) => some (c :: s, e)
      | none => if c = '.' then some ([], cs) else none

/-- `os.path.splitext` on a POSIX path: split off the extension at the
last dot of the final path component, unless every character of that
component before the dot is itself a dot (leading dots are not an
extension). -/
def splitextChars (p : List Char) : List Char × List Char :=
  let d := (splitAfterLast '/' p).1
  let base := (splitAfterLast '/' p).2
  match lastDotSplit base with
  | some (stem, ext) =>
      if stem.any (fun c => c ≠ '.') then (d ++ stem, '.' :: ext)
      else (p, [])
  | none => (p, [])

/-- `f"{os.path.splitext(filename)[0]}.mp3"` (line 337): the audio output
name computed from the reported filename's stem. -/
def audioOutputName (reported : String) : String :=
  String.mk (splitextChars reported.data).1 ++ ".mp3"

/-- `filename.endswith('.mp4')` / the rename at lines 286-289: the final
video path after the extension normalization. -/
def videoOutputName (reported : String) : String :=
  if (".mp4".data).isSuffixOf reported.data then reported
  else String.mk (splitextChars reported.data).1 ++ ".mp4"

/-- The outcome of the yt-dlp `extract_info(url, download=True)` call:
it either raises or returns metadata from which `prepare_filename`
reports a filename. -/
inductive Collab
  | raises
  | returns (filename : String)
deriving DecidableEq

/-- The result of `TelegramBot.download_video` (lines 249-295): `None` on
a collaborator exception, otherwise the reported filename normalized to
`.mp4`. -/
def download_video_fetch (c : Collab) : Option String :=
  match c with
  | Collab.raises => none
  | Collab.returns f => some (videoOutputName f)

/-- The result of `TelegramBot.download_audio` (lines 297-342): `None` on
a collaborator exception, otherwise the stem of the reported filename
with the fixed `.mp3` extension. -/
def download_audio_fetch (c : Collab) : Option String :=
  match c with
  | Collab.raises => none
  | Collab.returns f => some (audioOutputName f)

/-- Whitespace characters stripped by Python `int(str)` (ASCII subset). -/
def isSpaceChar (c : Char) : Bool :=
  c == ' ' || c == '\t' || c == '\n' || c == '\r'

/-- A nonempty all-digit character list parsed as a decimal number. -/
def parseDigits (l : List Char) : Option Nat :=
  if l ≠ [] ∧ l.all Char.isDigit then
    some (l.foldl (fun a c => a * 10 + (c.toNat - 48)) 0)
  else none

/-- Python `int(s)` on a string (line 214): strip surrounding whitespace,
an optional sign, then a nonempty run of decimal digits; `none` models
the `ValueError` raised otherwise. Underscore digit grouping is not
modelled: the quality token comes from `split('_')` and so never
contains an underscore. -/
def pyInt (s : String) : Option Int :=
  let t := ((s.data.dropWhile isSpaceChar).reverse.dropWhile isSpaceChar).reverse
  match t with
  | '+' :: rest => (parseDigits rest).map Int.ofNat
  | '-' :: rest => (parseDigits rest).map (fun n => -(n : Int))
  | rest => (parseDigits rest).map Int.ofNat

/-- The chat messages the selection flow can produce, abstracted from
their literal texts. -/
inductive Msg
  | startingDownload
  | downloadFailed
  | sendFileError
  | genericError
  | videoProgress (resolution : Int)
  | audioProgress
deriving DecidableEq

/-- The observable effects of one button press. -/
inductive Effect
  | editMessage (m : Msg)
  | sendMessage (m : Msg)
  | sendAudio (file : String)
  | sendVideo (file : String)
  | removeFile (file : String)
  | deleteMessage
deriving DecidableEq

/-- The behaviour of the external collaborators during one button press:
the yt-dlp outcome for a video and for an audio download, whether the
transport send block completes without raising, and whether
`os.path.exists(filename)` holds at the cleanup after a send failure. -/
structure World where
  videoCollab : Collab
  audioCollab : Collab
  sendOk : Bool
  fileStillExists : Bool
deriving DecidableEq

/-- `download_video` as run by the handler: it first sends the
progress-status message (line 252), then the collaborator outcome decides
the result. -/
def download_video_run (resolution : Int) (c : Collab) :
    List Effect × Option String :=
  ([Effect.sendMessage (Msg.videoProgress resolution)], download_video_fetch c)

/-- `download_audio` as run by the handler (line 300 then the download). -/
def download_audio_run (c : Collab) : List Effect × Option String :=
  ([Effect.sendMessage Msg.audioProgress], download_audio_fetch c)

/-- The delivery block at lines 221-244: open and send the file, then
remove it and delete the menu message; on any exception, edit in the
send-error message and then remove the file if it still exists. -/
def sendPhase (isAudio : Bool) (filename : String) (w : World) : List Effect :=
  if w.sendOk then
    [if isAudio then Effect.sendAudio filename else Effect.sendVideo filename,
     Effect.removeFile filename, Effect.deleteMessage]
  else
    Effect.editMessage Msg.sendFileError ::
      (if w.fileStillExists then [Effect.removeFile filename] else [])

/-- The body of `button_callback` after a successful payload decode:
edit in the starting message, run the selected download (converting the
quality to `int` first on the video path; a conversion failure propagates
to the outer handler, which edits in the generic error message), then
either report the failure or run the delivery block. -/
def handleSelection (quality : String) (w : World) : List Effect :=
  Effect.editMessage Msg.startingDownload ::
    (if quality = "audio" then
      (download_audio_run w.audioCollab).1 ++
        (match (download_audio_run w.audioCollab).2 with
         | none => [Effect.editMessage Msg.downloadFailed]
         | some filename => sendPhase true filename w)
    else
      match pyInt quality with
      | none => [Effect.editMessage Msg.genericError]
      | some r =>
          (download_video_run r w.videoCollab).1 ++
            (match (download_video_run r w.videoCollab).2 with
             | none => [Effect.editMessage Msg.downloadFailed]
             | some filename => sendPhase false filename w))

/-- `TelegramBot.button_callback` (lines 193-247) as an effect trace:
nothing happens unless the payload starts with `dl_`; a payload with no
second segment raises `IndexError` from `parts[1]`, caught by the outer
handler; otherwise the decoded quality drives `handleSelection`. -/
def button_callback (data : String) (w : World) : List Effect :=
  if startsWithDl data then
    match splitChars '_' data.data with
    | _ :: q :: _ => handleSelection (String.mk q) w
    | _ => [Effect.editMessage Msg.genericError]
  else []

/-- The loop invariant of `unique_resolutions`: after processing the
prefix `pre` of the format list, the accumulated dict has no duplicate
keys, a key is absent exactly when `pre` has no video candidate of that
height, and the value stored under a key is the first candidate attaining
the maximal file size among the same-height video candidates of `pre`. -/
def DictInv (pre : List Format) (acc : List (Option Nat × Format)) : Prop :=
  (acc.map Prod.fst).Nodup ∧
  (∀ res, dictLookup acc res = none ↔ sameHeightCandidates pre res = []) ∧
  (∀ res f, dictLookup acc res = some f → IsFirstMax (sameHeightCandidates pre res) f)

/-- An effect that removes the downloaded file (`os.remove`). -/
def isRemoveEffect : Effect → Bool
  | Effect.removeFile _ => true
  | _ => false

/-- The send-failure report (`❌ Error sending file: ...` edit). -/
def isSendErrorEdit : Effect → Bool
  | Effect.editMessage Msg.sendFileError => true
  | _ => false

/-- Every file-removal effect of the trace occurs strictly before every
send-failure report: the ordering asserted by the claim that cleanup
happens before the failure is reported. -/
def CleanupBeforeReport (t : List Effect) : Prop :=
  ∀ i j, i < t.length → j < t.length →
    isRemoveEffect (t.getD i Effect.deleteMessage) = true →
    isSendErrorEdit (t.getD j Effect.deleteMessage) = true → i < j

/-- The encoding-candidate list of the spec's end-to-end scenario,
used by the concrete witnesses. -/
def sampleFormats : List Format :=
  [⟨some 1080, some "avc1", some 50000000⟩,
   ⟨some 1080, some "avc1", some 80000000⟩,
   ⟨some 720, some "avc1", some 30000000⟩]

/-- String extensionality via the underlying character list. -/
theorem strEqOfData {a b : String} (h : a.data = b.data) : a = b := by
  cases a
  cases b
  exact congrArg String.mk h

/-- String append concatenates the underlying character lists. -/
theorem strDataAppend (a b : String) : (a ++ b).data = a.data ++ b.data := by
  cases a; cases b; rfl

/-- Rebuilding a string from its characters is the identity. -/
theorem strMkData (s : String) : String.mk s.data = s := by
  cases s; rfl

/-- Appending the empty string is the identity. -/
theorem strAppendEmpty (s : String) : s ++ "" = s := by
  apply strEqOfData
  rw [strDataAppend]
  simp

theorem dictLookup_insert_self (d : List (Option Nat × Format)) (k : Option Nat)
    (v : Format) : dictLookup (dictInsert d k v) k = some v := by
  induction d with
  | nil => simp [dictInsert, dictLookup]
  | cons hd tl ih =>
      obtain ⟨k1, v1⟩ := hd
      by_cases h : k1 = k
      · simp [dictInsert, dictLookup, h]
      · simp [dictInsert, dictLookup, h, ih]

theorem dictLookup_insert_ne (d : List (Option Nat × Format)) {k k1 : Option Nat}
    (v : Format) (h : k1 ≠ k) :
    dictLookup (dictInsert d k v) k1 = dictLookup d k1 := by
  have hne : ¬ k = k1 := fun hh => h hh.symm
  induction d with
  | nil => simp [dictInsert, dictLookup, hne]
  | cons hd tl ih =>
      obtain ⟨k0, v0⟩ := hd
      by_cases h0 : k0 = k
      · subst h0
        have hne0 : ¬ k0 = k1 := hne
        simp [dictInsert, dictLookup, hne0]
      · by_cases h1 : k0 = k1
        · subst h1
          simp [dictInsert, dictLookup, h0]
        · simp [dictInsert, dictLookup, h0, h1, ih]

theorem dictLookup_eq_none_iff (d : List (Option Nat × Format)) (k : Option Nat) :
    dictLookup d k = none ↔ k ∉ d.map Prod.fst := by
  induction d with
  | nil => simp [dictLookup]
  | cons hd tl ih =>
      obtain ⟨k0, v0⟩ := hd
      by_cases h0 : k0 = k
      · simp [dictLookup, h0]
      · simp only [dictLookup, List.map_cons, List.mem_cons]
        rw [if_neg h0, ih]
        constructor
        · intro hh hor
          rcases hor with he | hm
          · exact h0 he.symm
          · exact hh hm
        · intro hh hm
          exact hh (Or.inr hm)

theorem keys_dictInsert_of_mem {d : List (Option Nat × Format)} {k : Option Nat}
    (v : Format) (h : k ∈ d.map Prod.fst) :
    (dictInsert d k v).map Prod.fst = d.map Prod.fst := by
  induction d with
  | nil => simp at h
  | cons hd tl ih =>
      obtain ⟨k0, v0⟩ := hd
      by_cases h0 : k0 = k
      · simp [dictInsert, h0]
      · rw [List.map_cons] at h
        have hmem : k ∈ tl.map Prod.fst := by
          rcases List.mem_cons.mp h with h1 | h1
          · exact absurd h1.symm h0
          · exact h1
        simp [dictInsert, h0, ih hmem]

theorem keys_dictInsert_of_notMem {d : List (Option Nat × Format)} {k : Option Nat}
    (v : Format) (h : k ∉ d.map Prod.fst) :
    (dictInsert d k v).map Prod.fst = d.map Prod.fst ++ [k] := by
  induction d with
  | nil => simp [dictInsert]
  | cons hd tl ih =>
      obtain ⟨k0, v0⟩ := hd
      have h0 : k0 ≠ k := by
        intro hh
        exact h (by simp [hh])
      have h1 : k ∉ tl.map Prod.fst := by
        intro hh
        exact h (by simp [hh])
      simp [dictInsert, h0, ih h1]

theorem dictLookup_of_mem_nodup {d : List (Option Nat × Format)} {k : Option Nat}
    {v : Format} (hnd : (d.map Prod.fst).Nodup) (h : (k, v) ∈ d) :
    dictLookup d k = some v := by
  induction d with
  | nil => simp at h
  | cons hd tl ih =>
      obtain ⟨k0, v0⟩ := hd
      rw [List.map_cons] at hnd
      have hnd2 := List.nodup_cons.mp hnd
      rcases List.mem_cons.mp h with h1 | h1
      · have hk : k0 = k := (congrArg Prod.fst h1).symm
        have hv : v0 = v := (congrArg Prod.snd h1).symm
        simp [dictLookup, hk, hv]
      · have hk : k ∈ tl.map Prod.fst := List.mem_map.mpr ⟨(k, v), h1, rfl⟩
        have h0 : ¬ k0 = k := by
          intro hh
          exact hnd2.1 (hh ▸ hk)
        simp [dictLookup, h0, ih hnd2.2 h1]

theorem sameHeightCandidates_append (pre : List Format) (f : Format) (res : Option Nat) :
    sameHeightCandidates (pre ++ [f]) res =
      sameHeightCandidates pre res ++
        (if isVideoFormat f && (resKey f == res) then [f] else []) := by
  simp only [sameHeightCandidates, List.filter_append]
  cases h : (isVideoFormat f && (resKey f == res)) <;> simp [List.filter, h]

theorem addFormat_inv (pre : List Format) (f : Format)
    (acc : List (Option Nat × Format)) (h : DictInv pre acc) :
    DictInv (pre ++ [f]) (addFormat acc f) := by
  obtain ⟨hnd, hnone, hmax⟩ := h
  by_cases hv : isVideoFormat f = true
  case neg =>
    have hb : isVideoFormat f = false := by
      cases hfv : isVideoFormat f
      · rfl
      · exact absurd hfv hv
    have hadd : addFormat acc f = acc := by simp [addFormat, hb]
    have hsame : ∀ res,
        sameHeightCandidates (pre ++ [f]) res = sameHeightCandidates pre res := by
      intro res
      rw [sameHeightCandidates_append]
      simp [hb]
    rw [hadd]
    refine ⟨hnd, ?_, ?_⟩
    · intro res
      rw [hsame res]
      exact hnone res
    · intro res g hg
      rw [hsame res]
      exact hmax res g hg
  case pos =>
    cases hl : dictLookup acc (resKey f) with
    | none =>
      have hadd : addFormat acc f = dictInsert acc (resKey f) f := by
        simp [addFormat, hv, hl]
      have hempty : sameHeightCandidates pre (resKey f) = [] := (hnone _).mp hl
      have hnotmem : resKey f ∉ acc.map Prod.fst := (dictLookup_eq_none_iff acc _).mp hl
      rw [hadd]
      refine ⟨?_, ?_, ?_⟩
      · rw [keys_dictInsert_of_notMem f hnotmem]
        rw [List.nodup_append]
        exact ⟨hnd, List.nodup_singleton _,
          by simpa [List.disjoint_singleton] using hnotmem⟩
      · intro res
        by_cases hres : res = resKey f
        · subst hres
          rw [dictLookup_insert_self, sameHeightCandidates_append, hempty]
          simp [hv]
        · rw [dictLookup_insert_ne acc f hres, sameHeightCandidates_append]
          have hbeq : (resKey f == res) = false :=
            beq_eq_false_iff_ne.mpr (fun hh => hres hh.symm)
          simp [hbeq]
          exact hnone res
      · intro res g hg
        by_cases hres : res = resKey f
        · subst hres
          rw [dictLookup_insert_self] at hg
          obtain rfl : f = g := Option.some_inj.mp hg
          rw [sameHeightCandidates_append, hempty]
          simp only [hv, Bool.true_and, beq_self_eq_true, if_true, List.nil_append]
          exact ⟨[], [], rfl, by simp, by simp⟩
        · rw [dictLookup_insert_ne acc f hres] at hg
          rw [sameHeightCandidates_append]
          have hbeq : (resKey f == res) = false :=
            beq_eq_false_iff_ne.mpr (fun hh => hres hh.symm)
          simp [hbeq]
          exact hmax res g hg
    | some g0 =>
      by_cases hgt : fsize f > fsize g0
      · have hadd : addFormat acc f = dictInsert acc (resKey f) f := by
          simp [addFormat, hv, hl, hgt]
        have hmem : resKey f ∈ acc.map Prod.fst := by
          by_contra hnm
          rw [← dictLookup_eq_none_iff] at hnm
          rw [hnm] at hl
          exact Option.noConfusion hl
        have hIFM := hmax _ g0 hl
        rw [hadd]
        refine ⟨?_, ?_, ?_⟩
        · rw [keys_dictInsert_of_mem f hmem]
          exact hnd
        · intro res
          by_cases hres : res = resKey f
          · subst hres
            rw [dictLookup_insert_self, sameHeightCandidates_append]
            simp [hv]
          · rw [dictLookup_insert_ne acc f hres, sameHeightCandidates_append]
            have hbeq : (resKey f == res) = false :=
              beq_eq_false_iff_ne.mpr (fun hh => hres hh.symm)
            simp [hbeq]
            exact hnone res
        · intro res g hg
          by_cases hres : res = resKey f
          · subst hres
            rw [dictLookup_insert_self] at hg
            obtain rfl : f = g := Option.some_inj.mp hg
            rw [sameHeightCandidates_append]
            simp only [hv, Bool.true_and, beq_self_eq_true, if_true]
            refine ⟨sameHeightCandidates pre (resKey f), [], by simp, ?_, by simp⟩
            intro x hx
            obtain ⟨p, s, hl2, hp, hs⟩ := hIFM
            rw [hl2] at hx
            have hle : fsize x ≤ fsize g0 := by
              rcases List.mem_append.mp hx with hx1 | hx1
              · exact le_of_lt (hp x hx1)
              · rcases List.mem_cons.mp hx1 with rfl | hx2
                · exact le_refl _
                · exact hs x hx2
            exact lt_of_le_of_lt hle hgt
          · rw [dictLookup_insert_ne acc f hres] at hg
            rw [sameHeightCandidates_append]
            have hbeq : (resKey f == res) = false :=
              beq_eq_false_iff_ne.mpr (fun hh => hres hh.symm)
            simp [hbeq]
            exact hmax res g hg
      · have hadd : addFormat acc f = acc := by
          simp [addFormat, hv, hl, hgt]
        rw [hadd]
        refine ⟨hnd, ?_, ?_⟩
        · intro res
          rw [sameHeightCandidates_append]
          by_cases hres : res = resKey f
          · subst hres
            rw [hl]
            simp [hv]
          · have hbeq : (resKey f == res) = false :=
              beq_eq_false_iff_ne.mpr (fun hh => hres hh.symm)
            simp [hbeq]
            exact hnone res
        · intro res g hg
          rw [sameHeightCandidates_append]
          by_cases hres : res = resKey f
          · subst hres
            rw [hl] at hg
            obtain rfl : g0 = g := Option.some_inj.mp hg
            simp only [hv, Bool.true_and, beq_self_eq_true, if_true]
            obtain ⟨p, s, hl2, hp, hs⟩ := hmax _ g0 hl
            refine ⟨p, s ++ [f], by rw [hl2]; simp, hp, ?_⟩
            intro x hx
            rcases List.mem_append.mp hx with hx1 | hx1
            · exact hs x hx1
            · rcases List.mem_cons.mp hx1 with rfl | hx2
              · exact Nat.le_of_not_lt hgt
              · simp at hx2
          · have hbeq : (resKey f == res) = false :=
              beq_eq_false_iff_ne.mpr (fun hh => hres hh.symm)
            simp [hbeq]
            exact hmax res g hg

theorem foldl_addFormat_inv : ∀ (l pre : List Format) (acc : List (Option Nat × Format)),
    DictInv pre acc → DictInv (pre ++ l) (l.foldl addFormat acc) := by
  intro l
  induction l with
  | nil =>
      intro pre acc h
      simpa using h
  | cons f t ih =>
      intro pre acc h
      have h1 := addFormat_inv pre f acc h
      have h2 := ih (pre ++ [f]) (addFormat acc f) h1
      simpa [List.append_assoc] using h2

theorem unique_resolutions_inv (formats : List Format) :
    DictInv formats (unique_resolutions formats) := by
  have h0 : DictInv [] [] := by
    refine ⟨List.nodup_nil, ?_, ?_⟩
    · intro res
      simp [dictLookup, sameHeightCandidates]
    · intro res g hg
      simp [dictLookup] at hg
  have h1 := foldl_addFormat_inv formats [] [] h0
  simpa [unique_resolutions] using h1

theorem insertDesc_perm (x : Option Nat × Format) (l : List (Option Nat × Format)) :
    List.Perm (insertDesc x l) (x :: l) := by
  induction l with
  | nil => simp [insertDesc]
  | cons y ys ih =>
      by_cases h : heightKey x.1 < heightKey y.1
      · simp only [insertDesc]
        rw [if_pos h]
        exact (ih.cons y).trans (List.Perm.swap x y ys)
      · simp only [insertDesc]
        rw [if_neg h]

theorem sortDesc_perm (l : List (Option Nat × Format)) : List.Perm (sortDesc l) l := by
  induction l with
  | nil => simp [sortDesc]
  | cons x t ih =>
      have hx : sortDesc (x :: t) = insertDesc x (sortDesc t) := rfl
      rw [hx]
      exact (insertDesc_perm x (sortDesc t)).trans (ih.cons x)

theorem insertDesc_pairwise (x : Option Nat × Format) (l : List (Option Nat × Format))
    (h : l.Pairwise (fun a b => heightKey b.1 ≤ heightKey a.1)) :
    (insertDesc x l).Pairwise (fun a b => heightKey b.1 ≤ heightKey a.1) := by
  induction l with
  | nil => simp [insertDesc]
  | cons y ys ih =>
      rw [List.pairwise_cons] at h
      obtain ⟨hy, hys⟩ := h
      by_cases hlt : heightKey x.1 < heightKey y.1
      · simp only [insertDesc]
        rw [if_pos hlt, List.pairwise_cons]
        refine ⟨?_, ih hys⟩
        intro z hz
        rcases List.mem_cons.mp ((insertDesc_perm x ys).mem_iff.mp hz) with rfl | hz2
        · exact le_of_lt hlt
        · exact hy z hz2
      · simp only [insertDesc]
        rw [if_neg hlt, List.pairwise_cons]
        constructor
        · intro z hz
          rcases List.mem_cons.mp hz with rfl | hz2
          · exact Nat.le_of_not_lt hlt
          · exact le_trans (hy z hz2) (Nat.le_of_not_lt hlt)
        · exact List.pairwise_cons.mpr ⟨hy, hys⟩

theorem sortDesc_pairwise (l : List (Option Nat × Format)) :
    (sortDesc l).Pairwise (fun a b => heightKey b.1 ≤ heightKey a.1) := by
  induction l with
  | nil => simp [sortDesc]
  | cons x t ih => exact insertDesc_pairwise x (sortDesc t) ih

theorem isFirstMax_mem {l : List Format} {f : Format} (h : IsFirstMax l f) : f ∈ l := by
  obtain ⟨p, s, rfl, hp, hs⟩ := h
  simp

theorem isFirstMax_le {l : List Format} {f : Format} (h : IsFirstMax l f) :
    ∀ g ∈ l, fsize g ≤ fsize f := by
  obtain ⟨p, s, rfl, hp, hs⟩ := h
  intro g hg
  rcases List.mem_append.mp hg with h1 | h1
  · exact le_of_lt (hp g h1)
  · rcases List.mem_cons.mp h1 with rfl | h2
    · exact le_refl _
    · exact hs g h2

/-- C1: for every input encoding list containing at least one candidate
with a video codec, `get_available_formats` contains at most one entry
per distinct height key, and the entry kept under each height is a
same-height video candidate whose file size (missing sizes counting as 0)
is maximal among the same-height candidates, ties keeping the first
candidate encountered (`IsFirstMax`). -/
theorem claim1_reduce_keeps_max_per_height (formats : List Format)
    (_hvid : ∃ f ∈ formats, isVideoFormat f = true) :
    ((get_available_formats formats).map Prod.fst).Nodup ∧
      ∀ res fmt, (res, fmt) ∈ get_available_formats formats →
        IsFirstMax (sameHeightCandidates formats res) fmt ∧
          ∀ g ∈ sameHeightCandidates formats res, fsize g ≤ fsize fmt := by
  obtain ⟨hnd, hnone, hmax⟩ := unique_resolutions_inv formats
  have hperm := sortDesc_perm (unique_resolutions formats)
  constructor
  · exact ((hperm.map Prod.fst).nodup_iff).mpr hnd
  · intro res fmt hmem
    have hmem2 : (res, fmt) ∈ unique_resolutions formats := hperm.subset hmem
    have hlk := dictLookup_of_mem_nodup hnd hmem2
    have hIFM := hmax res fmt hlk
    exact ⟨hIFM, isFirstMax_le hIFM⟩

/-- Witness for C1 at the spec's end-to-end scenario list. -/
theorem claim1_witness :
    (∃ f ∈ sampleFormats, isVideoFormat f = true) ∧
      (((get_available_formats sampleFormats).map Prod.fst).Nodup ∧
        ∀ res fmt, (res, fmt) ∈ get_available_formats sampleFormats →
          IsFirstMax (sameHeightCandidates sampleFormats res) fmt ∧
            ∀ g ∈ sameHeightCandidates sampleFormats res, fsize g ≤ fsize fmt) :=
  ⟨by decide, claim1_reduce_keeps_max_per_height sampleFormats (by decide)⟩

/-- C3: for every input encoding list, the output of
`get_available_formats` is sorted by height in descending numeric order
under the sort key `heightKey`, which maps the non-integer `'unknown'`
height to 0, below every positive numeric height. -/
theorem claim3_reduce_sorted_descending (formats : List Format) :
    (get_available_formats formats).Pairwise
        (fun a b => heightKey b.1 ≤ heightKey a.1) ∧
      heightKey none = 0 :=
  ⟨sortDesc_pairwise (unique_resolutions formats), rfl⟩

/-- C5: every entry of the `get_available_formats` output is one of the
input candidates and has a video codec, i.e. its `vcodec` differs from
the literal `'none'` that marks audio-only streams, so audio-only
candidates never appear in the output. -/
theorem claim5_output_only_video_candidates (formats : List Format)
    (res : Option Nat) (fmt : Format)
    (hmem : (res, fmt) ∈ get_available_formats formats) :
    fmt ∈ formats ∧ isVideoFormat fmt = true ∧ fmt.vcodec ≠ some "none" := by
  obtain ⟨hnd, hnone, hmax⟩ := unique_resolutions_inv formats
  have hperm := sortDesc_perm (unique_resolutions formats)
  have hmem2 : (res, fmt) ∈ unique_resolutions formats := hperm.subset hmem
  have hlk := dictLookup_of_mem_nodup hnd hmem2
  have hIFM := hmax res fmt hlk
  have hfil : fmt ∈ sameHeightCandidates formats res := isFirstMax_mem hIFM
  have hpred := List.of_mem_filter hfil
  have hvid : isVideoFormat fmt = true :=
    (Bool.and_eq_true (isVideoFormat fmt) (resKey fmt == res) ▸ hpred).1
  refine ⟨List.mem_of_mem_filter hfil, hvid, ?_⟩
  intro hc
  simp [isVideoFormat, hc] at hvid

/-- Witness for C5: the 720p entry of the sample scenario. -/
theorem claim5_witness :
    ((some 720 : Option Nat), (⟨some 720, some "avc1", some 30000000⟩ : Format)) ∈
        get_available_formats sampleFormats ∧
      ((⟨some 720, some "avc1", some 30000000⟩ : Format) ∈ sampleFormats ∧
        isVideoFormat ⟨some 720, some "avc1", some 30000000⟩ = true ∧
        (⟨some 720, some "avc1", some 30000000⟩ : Format).vcodec ≠ some "none") :=
  ⟨by decide, claim5_output_only_video_candidates sampleFormats (some 720)
    ⟨some 720, some "avc1", some 30000000⟩ (by decide)⟩

theorem foldl_buttons_eq (url : String) :
    ∀ (l : List (Option Nat × Format)) (acc : List Button),
      l.foldl (fun a rf => a ++ [videoButton url rf]) acc =
        acc ++ l.map (videoButton url) := by
  intro l
  induction l with
  | nil => intro acc; simp
  | cons rf t ih =>
      intro acc
      rw [List.foldl_cons, ih (acc ++ [videoButton url rf])]
      simp

theorem buildButtons_eq (fs : List (Option Nat × Format)) (url : String) :
    buildButtons fs url = (fs.take 3).map (videoButton url) ++ [audioButton url] := by
  rw [buildButtons, foldl_buttons_eq url (fs.take 3) []]
  simp

/-- C4: for every reduced format map coming out of
`get_available_formats` (non-empty, as required before the menu is
built), the rendered quality menu has `min 3 (number of heights) + 1`
entries, hence at most 4: the video buttons of at most the first three
height entries, followed unconditionally by exactly one synthetic
audio-only button as the last entry. -/
theorem claim4_menu_capped_and_audio_last (formats : List Format) (url : String)
    (_hne : get_available_formats formats ≠ []) :
    (buildButtons (get_available_formats formats) url).length =
        min 3 (get_available_formats formats).length + 1 ∧
      (buildButtons (get_available_formats formats) url).length ≤ 4 ∧
      (buildButtons (get_available_formats formats) url).getLast? =
        some (audioButton url) ∧
      ∀ b ∈ (buildButtons (get_available_formats formats) url).dropLast,
        ∃ rf ∈ (get_available_formats formats).take 3, b = videoButton url rf := by
  rw [buildButtons_eq]
  refine ⟨?_, ?_, ?_, ?_⟩
  · simp [List.length_take]
  · simp only [List.length_append, List.length_map, List.length_take,
      List.length_cons, List.length_nil]
    have h3 : min 3 (get_available_formats formats).length ≤ 3 := Nat.min_le_left _ _
    omega
  · exact List.getLast?_concat _
  · intro b hb
    rw [List.dropLast_concat] at hb
    obtain ⟨rf, hrf, hbe⟩ := List.mem_map.mp hb
    exact ⟨rf, hrf, hbe.symm⟩

/-- Witness for C4 at the sample scenario. -/
theorem claim4_witness :
    get_available_formats sampleFormats ≠ [] ∧
      ((buildButtons (get_available_formats sampleFormats) "https://youtu.be/x").length =
          min 3 (get_available_formats sampleFormats).length + 1 ∧
        (buildButtons (get_available_formats sampleFormats) "https://youtu.be/x").length ≤ 4 ∧
        (buildButtons (get_available_formats sampleFormats) "https://youtu.be/x").getLast? =
          some (audioButton "https://youtu.be/x") ∧
        ∀ b ∈ (buildButtons (get_available_formats sampleFormats) "https://youtu.be/x").dropLast,
          ∃ rf ∈ (get_available_formats sampleFormats).take 3,
            b = videoButton "https://youtu.be/x" rf) :=
  ⟨by decide, claim4_menu_capped_and_audio_last sampleFormats "https://youtu.be/x" (by decide)⟩

/-- C6: the menu button built for an entry with known height `h` carries
the label `<h>p (<size> MB-rounded-to-one-decimal>MB)` when the file size
is known (and nonzero), just `<h>p` when the file size is missing, and
the trailing audio entry carries the fixed `Audio Only` marker label. -/
theorem claim6_button_labels (fs : List (Option Nat × Format)) (url : String)
    (i : Nat) (h : Nat) (fmt : Format)
    (hget : (fs.take 3)[i]? = some (some h, fmt)) :
    (fmt.filesize = none →
        ((buildButtons fs url)[i]?).map Button.label = some (toString h ++ "p")) ∧
      (∀ n, fmt.filesize = some n → 0 < n →
        ((buildButtons fs url)[i]?).map Button.label =
          some (toString h ++ "p (" ++ mbStr n ++ "MB)")) ∧
      (buildButtons fs url).getLast? = some (audioButton url) ∧
      (audioButton url).label = "🎵 Audio Only (MP3)" := by
  have hlt : i < (fs.take 3).length := (List.getElem?_eq_some.mp hget).1
  have hbtn : (buildButtons fs url)[i]? = some (videoButton url (some h, fmt)) := by
    rw [buildButtons_eq, List.getElem?_append, if_pos (by simpa using hlt),
      List.getElem?_map (videoButton url) (fs.take 3) i, hget]
    rfl
  refine ⟨?_, ?_, ?_, rfl⟩
  · intro hno
    have hlab : (videoButton url (some h, fmt)).label = toString h ++ "p" := by
      simp [videoButton, resStr, sizeStr, hno, strAppendEmpty]
    rw [hbtn]
    simp [hlab]
  · intro n hn hpos
    have hne : n ≠ 0 := Nat.pos_iff_ne_zero.mp hpos
    have hlab : (videoButton url (some h, fmt)).label =
        toString h ++ "p (" ++ mbStr n ++ "MB)" := by
      simp only [videoButton, resStr, sizeStr, hn]
      rw [if_pos hne]
      apply strEqOfData
      simp only [strDataAppend, List.append_assoc]
      rfl
    rw [hbtn]
    simp [hlab]
  · rw [buildButtons_eq]
    exact List.getLast?_concat _

/-- Witness for C6: the 1080p entry with a known 80000000-byte size. -/
theorem claim6_witness :
    (([((some 1080 : Option Nat), (⟨some 1080, some "avc1", some 80000000⟩ : Format))].take 3)[0]? =
        some (some 1080, (⟨some 1080, some "avc1", some 80000000⟩ : Format))) ∧
      (((⟨some 1080, some "avc1", some 80000000⟩ : Format).filesize = none →
          ((buildButtons [(some 1080, ⟨some 1080, some "avc1", some 80000000⟩)] "u")[0]?).map
              Button.label = some (toString 1080 ++ "p")) ∧
        (∀ n, (⟨some 1080, some "avc1", some 80000000⟩ : Format).filesize = some n → 0 < n →
          ((buildButtons [(some 1080, ⟨some 1080, some "avc1", some 80000000⟩)] "u")[0]?).map
              Button.label = some (toString 1080 ++ "p (" ++ mbStr n ++ "MB)")) ∧
        (buildButtons [(some 1080, ⟨some 1080, some "avc1", some 80000000⟩)] "u").getLast? =
          some (audioButton "u") ∧
        (audioButton "u").label = "🎵 Audio Only (MP3)") :=
  ⟨rfl, claim6_button_labels
    [(some 1080, ⟨some 1080, some "avc1", some 80000000⟩)] "u" 0 1080
    ⟨some 1080, some "avc1", some 80000000⟩ rfl⟩

theorem splitChars_ne_nil (sep : Char) (l : List Char) : splitChars sep l ≠ [] := by
  cases l with
  | nil => simp [splitChars]
  | cons c cs =>
      simp only [splitChars]
      cases h : splitChars sep cs with
      | nil => simp
      | cons hd tl => by_cases hc : c = sep <;> simp [hc]

theorem joinChars_cons_head (sep c : Char) (hd : List Char) (tl : List (List Char)) :
    joinChars sep ((c :: hd) :: tl) = c :: joinChars sep (hd :: tl) := by
  cases tl <;> simp [joinChars]

theorem splitChars_cons_eq (sep c : Char) (cs : List Char) :
    ∃ hd tl, splitChars sep cs = hd :: tl ∧
      splitChars sep (c :: cs) =
        (if c = sep then [] :: hd :: tl else (c :: hd) :: tl) := by
  cases h : splitChars sep cs with
  | nil => exact absurd h (splitChars_ne_nil sep cs)
  | cons hd tl =>
      refine ⟨hd, tl, rfl, ?_⟩
      simp only [splitChars, h]

theorem joinChars_splitChars (sep : Char) (l : List Char) :
    joinChars sep (splitChars sep l) = l := by
  induction l with
  | nil => rfl
  | cons c cs ih =>
      obtain ⟨hd, tl, h, hstep⟩ := splitChars_cons_eq sep c cs
      rw [h] at ih
      rw [hstep]
      by_cases hc : c = sep
      · rw [if_pos hc]
        have h2 : joinChars sep ([] :: hd :: tl) = sep :: joinChars sep (hd :: tl) := by
          simp [joinChars]
        rw [h2, ih, hc]
      · rw [if_neg hc, joinChars_cons_head, ih]

theorem splitChars_append (sep : Char) (a b : List Char) (ha : sep ∉ a) :
    splitChars sep (a ++ sep :: b) = a :: splitChars sep b := by
  induction a with
  | nil =>
      simp only [List.nil_append, splitChars]
      cases h : splitChars sep b with
      | nil => exact absurd h (splitChars_ne_nil sep b)
      | cons hd tl => simp
  | cons c a2 ih =>
      have hc : ¬ c = sep := fun hh => ha (by rw [← hh]; exact List.mem_cons_self c a2)
      have ha2 : sep ∉ a2 := fun hh => ha (List.mem_cons_of_mem c hh)
      obtain ⟨hd, tl, h, hstep⟩ := splitChars_cons_eq sep c (a2 ++ sep :: b)
      have hcons : (c :: a2) ++ sep :: b = c :: (a2 ++ sep :: b) := rfl
      rw [hcons, hstep, if_neg hc]
      rw [ih ha2] at h
      injection h with h3 h4
      rw [← h3, ← h4]

/-- C2: for every quality string without underscores and every URL string
(underscores allowed), building the `dl_<quality>_<url>` payload and then
decoding it by splitting on underscores — second segment as quality, the
remaining segments rejoined as URL — recovers both exactly. -/
theorem claim2_payload_roundtrip (q url : String) (hq : '_' ∉ q.data) :
    decodeCallback (encodeCallback q url) = some (q, url) := by
  have h1 : ("dl_" : String).data = ['d', 'l', '_'] := rfl
  have h2 : ("_" : String).data = ['_'] := rfl
  have hdata : (encodeCallback q url).data =
      'd' :: 'l' :: '_' :: (q.data ++ '_' :: url.data) := by
    simp [encodeCallback, strDataAppend, h1, h2, List.append_assoc]
  have hdl : ('_' : Char) ∉ ['d', 'l'] := by decide
  have hsplit : splitChars '_' ('d' :: 'l' :: '_' :: (q.data ++ '_' :: url.data)) =
      ['d', 'l'] :: q.data :: splitChars '_' url.data := by
    calc splitChars '_' ('d' :: 'l' :: '_' :: (q.data ++ '_' :: url.data))
        = splitChars '_' (['d', 'l'] ++ '_' :: (q.data ++ '_' :: url.data)) := rfl
      _ = ['d', 'l'] :: splitChars '_' (q.data ++ '_' :: url.data) :=
          splitChars_append '_' ['d', 'l'] (q.data ++ '_' :: url.data) hdl
      _ = ['d', 'l'] :: q.data :: splitChars '_' url.data := by
          rw [splitChars_append '_' q.data url.data hq]
  simp only [decodeCallback, hdata, hsplit]
  rw [joinChars_splitChars, strMkData, strMkData]

/-- Witness for C2 at the spec's round-trip example. -/
theorem claim2_witness :
    ('_' ∉ ("1080" : String).data) ∧
      decodeCallback (encodeCallback "1080" "https://x/y_z") =
        some ("1080", "https://x/y_z") :=
  ⟨by decide, claim2_payload_roundtrip "1080" "https://x/y_z" (by decide)⟩

theorem splitAfterLast_append (sep : Char) (d0 rest : List Char) (h : sep ∉ rest) :
    splitAfterLast sep (d0 ++ sep :: rest) = (d0 ++ [sep], rest) := by
  induction d0 with
  | nil =>
      simp only [List.nil_append]
      simp [splitAfterLast, h]
  | cons c d ih =>
      have hmem : sep ∈ d ++ sep :: rest := by simp
      simp [splitAfterLast, hmem, ih]

theorem lastDotSplit_notMem (l : List Char) (h : '.' ∉ l) : lastDotSplit l = none := by
  induction l with
  | nil => rfl
  | cons c cs ih =>
      have h1 : '.' ∉ cs := fun hh => h (List.mem_cons_of_mem c hh)
      have h2 : ¬ c = '.' := fun hh => h (by rw [← hh]; exact List.mem_cons_self c cs)
      simp [lastDotSplit, ih h1, h2]

theorem lastDotSplit_append (t e : List Char) (h : '.' ∉ e) :
    lastDotSplit (t ++ '.' :: e) = some (t, e) := by
  induction t with
  | nil =>
      simp [lastDotSplit, lastDotSplit_notMem e h]
  | cons c t2 ih =>
      simp [lastDotSplit, ih]

theorem splitextChars_shape (d0 title ext : List Char)
    (hrest : ('/' : Char) ∉ title ++ '.' :: ext)
    (hdot2 : '.' ∉ ext)
    (hany : title.any (fun c => c ≠ '.') = true) :
    splitextChars (d0 ++ '/' :: (title ++ '.' :: ext)) =
      ((d0 ++ ['/']) ++ title, '.' :: ext) := by
  unfold splitextChars
  rw [splitAfterLast_append '/' d0 (title ++ '.' :: ext) hrest]
  dsimp only
  rw [lastDotSplit_append title ext hdot2]
  dsimp only
  rw [if_pos hany]

/-- C7: a successful audio download returns the reported filename's stem
with the fixed `.mp3` extension: on the template-shaped report
`temp_downloads/<title>.<ext>` the result is `temp_downloads/<title>.mp3`
for every intermediate extension `ext`, and every successful result ends
in `.mp3`. -/
theorem claim7_audio_path_mp3 (title ext : String)
    (h1 : '/' ∉ title.data) (h2 : '/' ∉ ext.data) (h3 : '.' ∉ ext.data)
    (h4 : ∃ ch ∈ title.data, ch ≠ '.') :
    download_audio_fetch (Collab.returns ("temp_downloads/" ++ title ++ "." ++ ext)) =
        some ("temp_downloads/" ++ title ++ ".mp3") ∧
      ∀ c path, download_audio_fetch c = some path →
        ∃ stem, path = String.mk stem ++ ".mp3" := by
  have ha : ("temp_downloads/" : String).data = "temp_downloads".data ++ ['/'] := rfl
  have hb : ("." : String).data = ['.'] := rfl
  constructor
  · have hdata : ("temp_downloads/" ++ title ++ "." ++ ext).data =
        "temp_downloads".data ++ '/' :: (title.data ++ '.' :: ext.data) := by
      simp [strDataAppend, ha, hb, List.append_assoc]
    have hrest : ('/' : Char) ∉ title.data ++ '.' :: ext.data := by
      intro hh
      rcases List.mem_append.mp hh with hm | hm
      · exact h1 hm
      · rcases List.mem_cons.mp hm with he | hm2
        · exact absurd he (by decide)
        · exact h2 hm2
    have hsplit := splitAfterLast_append '/' "temp_downloads".data
      (title.data ++ '.' :: ext.data) hrest
    have hdot := lastDotSplit_append title.data ext.data h3
    have hany : title.data.any (fun c => c ≠ '.') = true := by
      obtain ⟨ch, hch, hne⟩ := h4
      exact List.any_eq_true.mpr ⟨ch, hch, by simp [hne]⟩
    have hsx : splitextChars ("temp_downloads/" ++ title ++ "." ++ ext).data =
        (("temp_downloads".data ++ ['/']) ++ title.data, '.' :: ext.data) := by
      rw [hdata]
      exact splitextChars_shape "temp_downloads".data title.data ext.data hrest h3 hany
    show some (audioOutputName ("temp_downloads/" ++ title ++ "." ++ ext)) = _
    congr 1
    apply strEqOfData
    rw [audioOutputName, hsx]
    simp [strDataAppend, ha, List.append_assoc]
  · intro c path hp
    cases c with
    | raises => simp [download_audio_fetch] at hp
    | returns f =>
        have hpath : audioOutputName f = path := by
          simpa [download_audio_fetch] using hp
        exact ⟨(splitextChars f.data).1, by rw [← hpath]; rfl⟩

/-- Witness for C7 at the spec's `Song` example with intermediate
extension `webm`. -/
theorem claim7_witness :
    ('/' ∉ ("Song" : String).data) ∧ ('/' ∉ ("webm" : String).data) ∧
      ('.' ∉ ("webm" : String).data) ∧ (∃ ch ∈ ("Song" : String).data, ch ≠ '.') ∧
      (download_audio_fetch (Collab.returns ("temp_downloads/" ++ "Song" ++ "." ++ "webm")) =
          some ("temp_downloads/" ++ "Song" ++ ".mp3") ∧
        ∀ c path, download_audio_fetch c = some path →
          ∃ stem, path = String.mk stem ++ ".mp3") :=
  ⟨by decide, by decide, by decide, by decide,
    claim7_audio_path_mp3 "Song" "webm" (by decide) (by decide) (by decide) (by decide)⟩

theorem button_callback_encode (q u : String) (w : World) (hq : '_' ∉ q.data) :
    button_callback (encodeCallback q u) w = handleSelection q w := by
  have h1 : ("dl_" : String).data = ['d', 'l', '_'] := rfl
  have hdata : (encodeCallback q u).data =
      'd' :: 'l' :: '_' :: (q.data ++ '_' :: u.data) := by
    simp [encodeCallback, strDataAppend, h1, List.append_assoc]
  have hstart : startsWithDl (encodeCallback q u) = true := by
    rw [startsWithDl, hdata]
    rfl
  have hdl : ('_' : Char) ∉ ['d', 'l'] := by decide
  have hsplit : splitChars '_' (encodeCallback q u).data =
      ['d', 'l'] :: q.data :: splitChars '_' u.data := by
    rw [hdata]
    calc splitChars '_' ('d' :: 'l' :: '_' :: (q.data ++ '_' :: u.data))
        = splitChars '_' (['d', 'l'] ++ '_' :: (q.data ++ '_' :: u.data)) := rfl
      _ = ['d', 'l'] :: splitChars '_' (q.data ++ '_' :: u.data) :=
          splitChars_append '_' ['d', 'l'] (q.data ++ '_' :: u.data) hdl
      _ = ['d', 'l'] :: q.data :: splitChars '_' u.data := by
          rw [splitChars_append '_' q.data u.data hq]
  simp only [button_callback, hstart, hsplit, if_true, strMkData]

/-- C8: when the download collaborator raises, the fetch returns no file
path, the trace ends with the download-failed edit, and no file is ever
handed to the transport's send operation. -/
theorem claim8_collaborator_raise_fails (q u : String) (w : World) (hq : '_' ∉ q.data)
    (hcase : (q = "audio" ∧ w.audioCollab = Collab.raises) ∨
      (q ≠ "audio" ∧ (∃ n, pyInt q = some n) ∧ w.videoCollab = Collab.raises)) :
    (∃ p, button_callback (encodeCallback q u) w =
        [Effect.editMessage Msg.startingDownload, Effect.sendMessage p,
         Effect.editMessage Msg.downloadFailed]) ∧
      (∀ f, Effect.sendAudio f ∉ button_callback (encodeCallback q u) w) ∧
      (∀ f, Effect.sendVideo f ∉ button_callback (encodeCallback q u) w) ∧
      download_video_fetch Collab.raises = none ∧
      download_audio_fetch Collab.raises = none := by
  rw [button_callback_encode q u w hq]
  rcases hcase with ⟨hqa, hra⟩ | ⟨hqa, ⟨n, hn⟩, hrv⟩
  · subst hqa
    have ht : handleSelection "audio" w =
        [Effect.editMessage Msg.startingDownload, Effect.sendMessage Msg.audioProgress,
         Effect.editMessage Msg.downloadFailed] := by
      simp [handleSelection, download_audio_run, download_audio_fetch, hra]
    rw [ht]
    refine ⟨⟨Msg.audioProgress, rfl⟩, ?_, ?_, rfl, rfl⟩
    · intro f
      simp
    · intro f
      simp
  · have ht : handleSelection q w =
        [Effect.editMessage Msg.startingDownload,
         Effect.sendMessage (Msg.videoProgress n),
         Effect.editMessage Msg.downloadFailed] := by
      simp [handleSelection, hqa, hn, download_video_run, download_video_fetch, hrv]
    rw [ht]
    refine ⟨⟨Msg.videoProgress n, rfl⟩, ?_, ?_, rfl, rfl⟩
    · intro f
      simp
    · intro f
      simp

/-- Witness for C8: an audio press whose collaborator raises. -/
theorem claim8_witness :
    ('_' ∉ ("audio" : String).data) ∧
      ((("audio" : String) = "audio" ∧
          (⟨Collab.raises, Collab.raises, true, true⟩ : World).audioCollab = Collab.raises) ∨
        (("audio" : String) ≠ "audio" ∧ (∃ n, pyInt "audio" = some n) ∧
          (⟨Collab.raises, Collab.raises, true, true⟩ : World).videoCollab = Collab.raises)) ∧
      ((∃ p, button_callback (encodeCallback "audio" "https://youtu.be/x")
            ⟨Collab.raises, Collab.raises, true, true⟩ =
          [Effect.editMessage Msg.startingDownload, Effect.sendMessage p,
           Effect.editMessage Msg.downloadFailed]) ∧
        (∀ f, Effect.sendAudio f ∉ button_callback (encodeCallback "audio" "https://youtu.be/x")
            ⟨Collab.raises, Collab.raises, true, true⟩) ∧
        (∀ f, Effect.sendVideo f ∉ button_callback (encodeCallback "audio" "https://youtu.be/x")
            ⟨Collab.raises, Collab.raises, true, true⟩) ∧
        download_video_fetch Collab.raises = none ∧
        download_audio_fetch Collab.raises = none) :=
  ⟨by decide, Or.inl ⟨rfl, rfl⟩,
    claim8_collaborator_raise_fails "audio" "https://youtu.be/x"
      ⟨Collab.raises, Collab.raises, true, true⟩ (by decide) (Or.inl ⟨rfl, rfl⟩)⟩

/-- C9 (amended): for every delivery attempt of a downloaded file, the
local file is removed after a successful send, and after a failed send it
is removed only if it still exists — with the removal happening
immediately AFTER the failure report is edited in, not before; when the
file no longer exists, no removal happens at all. -/
theorem claim9_cleanup_after_delivery (q u : String) (w : World) (file : String)
    (hq : '_' ∉ q.data)
    (hfetch : (q = "audio" ∧ download_audio_fetch w.audioCollab = some file) ∨
      (q ≠ "audio" ∧ ∃ n, pyInt q = some n ∧
        download_video_fetch w.videoCollab = some file)) :
    (w.sendOk = true →
        List.IsSuffix
          [(if q = "audio" then Effect.sendAudio file else Effect.sendVideo file),
           Effect.removeFile file, Effect.deleteMessage]
          (button_callback (encodeCallback q u) w)) ∧
      (w.sendOk = false → w.fileStillExists = true →
        List.IsSuffix [Effect.editMessage Msg.sendFileError, Effect.removeFile file]
          (button_callback (encodeCallback q u) w)) ∧
      (w.sendOk = false → w.fileStillExists = false →
        (∀ g, Effect.removeFile g ∉ button_callback (encodeCallback q u) w) ∧
        (button_callback (encodeCallback q u) w).getLast? =
          some (Effect.editMessage Msg.sendFileError)) := by
  rw [button_callback_encode q u w hq]
  rcases hfetch with ⟨hqa, hf⟩ | ⟨hqa, n, hn, hf⟩
  · subst hqa
    have ht : handleSelection "audio" w =
        Effect.editMessage Msg.startingDownload ::
          Effect.sendMessage Msg.audioProgress :: sendPhase true file w := by
      simp [handleSelection, download_audio_run, hf]
    rw [ht]
    refine ⟨?_, ?_, ?_⟩
    · intro hs
      refine ⟨[Effect.editMessage Msg.startingDownload,
        Effect.sendMessage Msg.audioProgress], ?_⟩
      simp [sendPhase, hs]
    · intro hs hex
      refine ⟨[Effect.editMessage Msg.startingDownload,
        Effect.sendMessage Msg.audioProgress], ?_⟩
      simp [sendPhase, hs, hex]
    · intro hs hex
      constructor
      · intro g
        simp [sendPhase, hs, hex]
      · simp [sendPhase, hs, hex]
  · have ht : handleSelection q w =
        Effect.editMessage Msg.startingDownload ::
          Effect.sendMessage (Msg.videoProgress n) :: sendPhase false file w := by
      simp [handleSelection, hqa, hn, download_video_run, hf]
    rw [ht]
    refine ⟨?_, ?_, ?_⟩
    · intro hs
      refine ⟨[Effect.editMessage Msg.startingDownload,
        Effect.sendMessage (Msg.videoProgress n)], ?_⟩
      simp [sendPhase, hs, hqa]
    · intro hs hex
      refine ⟨[Effect.editMessage Msg.startingDownload,
        Effect.sendMessage (Msg.videoProgress n)], ?_⟩
      simp [sendPhase, hs, hex]
    · intro hs hex
      constructor
      · intro g
        simp [sendPhase, hs, hex]
      · simp [sendPhase, hs, hex]

/-- Counterexample to C9 as stated: at a concrete failing send (audio
file delivered, the transport raises, the file still exists), the trace
edits in the send-failure report at index 2 and removes the file at
index 3, so the cleanup does NOT happen before the failure is reported. -/
theorem claim9_counterexample :
    ¬ CleanupBeforeReport (button_callback "dl_audio_u"
        ⟨Collab.raises, Collab.returns "temp_downloads/s.webm", false, true⟩) := by
  intro hcl
  have h32 := hcl 3 2 (by decide) (by decide) (by decide) (by decide)
  exact absurd h32 (by decide)

/-- Witness for the amended C9 at a successful audio delivery. -/
theorem claim9_witness :
    ('_' ∉ ("audio" : String).data) ∧
      ((("audio" : String) = "audio" ∧
          download_audio_fetch
              (⟨Collab.raises, Collab.returns "temp_downloads/s.webm", true, true⟩ : World).audioCollab =
            some "temp_downloads/s.mp3") ∨
        (("audio" : String) ≠ "audio" ∧ ∃ n, pyInt "audio" = some n ∧
          download_video_fetch
              (⟨Collab.raises, Collab.returns "temp_downloads/s.webm", true, true⟩ : World).videoCollab =
            some "temp_downloads/s.mp3")) ∧
      (((⟨Collab.raises, Collab.returns "temp_downloads/s.webm", true, true⟩ : World).sendOk = true →
          List.IsSuffix
            [(if ("audio" : String) = "audio" then Effect.sendAudio "temp_downloads/s.mp3"
              else Effect.sendVideo "temp_downloads/s.mp3"),
             Effect.removeFile "temp_downloads/s.mp3", Effect.deleteMessage]
            (button_callback (encodeCallback "audio" "u")
              ⟨Collab.raises, Collab.returns "temp_downloads/s.webm", true, true⟩)) ∧
        ((⟨Collab.raises, Collab.returns "temp_downloads/s.webm", true, true⟩ : World).sendOk = false →
          (⟨Collab.raises, Collab.returns "temp_downloads/s.webm", true, true⟩ : World).fileStillExists = true →
          List.IsSuffix
            [Effect.editMessage Msg.sendFileError, Effect.removeFile "temp_downloads/s.mp3"]
            (button_callback (encodeCallback "audio" "u")
              ⟨Collab.raises, Collab.returns "temp_downloads/s.webm", true, true⟩)) ∧
        ((⟨Collab.raises, Collab.returns "temp_downloads/s.webm", true, true⟩ : World).sendOk = false →
          (⟨Collab.raises, Collab.returns "temp_downloads/s.webm", true, true⟩ : World).fileStillExists = false →
          (∀ g, Effect.removeFile g ∉ button_callback (encodeCallback "audio" "u")
              ⟨Collab.raises, Collab.returns "temp_downloads/s.webm", true, true⟩) ∧
          (button_callback (encodeCallback "audio" "u")
              ⟨Collab.raises, Collab.returns "temp_downloads/s.webm", true, true⟩).getLast? =
            some (Effect.editMessage Msg.sendFileError))) :=
  ⟨by decide, Or.inl ⟨rfl, by decide⟩,
    claim9_cleanup_after_delivery "audio" "u"
      ⟨Collab.raises, Collab.returns "temp_downloads/s.webm", true, true⟩
      "temp_downloads/s.mp3" (by decide) (Or.inl ⟨rfl, by decide⟩)⟩

/-- C10: a button payload whose quality token is neither `audio` nor a
parseable decimal integer (for example the `unknown` token produced by a
menu entry of unknown height) never starts a download — the trace is
exactly the starting edit followed by the generic-error edit, with no
progress message sent — and ends with the generic error message. -/
theorem claim10_unparseable_quality_error (q u : String) (w : World)
    (hq : '_' ∉ q.data) (hqa : q ≠ "audio") (hint : pyInt q = none) :
    button_callback (encodeCallback q u) w =
        [Effect.editMessage Msg.startingDownload, Effect.editMessage Msg.genericError] ∧
      (∀ m, Effect.sendMessage m ∉ button_callback (encodeCallback q u) w) ∧
      (button_callback (encodeCallback q u) w).getLast? =
        some (Effect.editMessage Msg.genericError) := by
  have ht : button_callback (encodeCallback q u) w =
      [Effect.editMessage Msg.startingDownload, Effect.editMessage Msg.genericError] := by
    rw [button_callback_encode q u w hq]
    simp [handleSelection, hqa, hint]
  refine ⟨ht, ?_, ?_⟩
  · intro m
    rw [ht]
    simp
  · rw [ht]
    rfl

/-- Witness for C10 at the `unknown` quality token. -/
theorem claim10_witness :
    ('_' ∉ ("unknown" : String).data) ∧ (("unknown" : String) ≠ "audio") ∧
      pyInt "unknown" = none ∧
      (button_callback (encodeCallback "unknown" "https://youtu.be/x")
            ⟨Collab.raises, Collab.raises, true, true⟩ =
          [Effect.editMessage Msg.startingDownload, Effect.editMessage Msg.genericError] ∧
        (∀ m, Effect.sendMessage m ∉ button_callback (encodeCallback "unknown" "https://youtu.be/x")
            ⟨Collab.raises, Collab.raises, true, true⟩) ∧
        (button_callback (encodeCallback "unknown" "https://youtu.be/x")
            ⟨Collab.raises, Collab.raises, true, true⟩).getLast? =
          some (Effect.editMessage Msg.genericError)) :=
  ⟨by decide, by decide, by decide,
    claim10_unparseable_quality_error "unknown" "https://youtu.be/x"
      ⟨Collab.raises, Collab.raises, true, true⟩ (by decide) (by decide) (by decide)⟩
